import Mathlib

set_option maxHeartbeats 1000000
set_option linter.unusedVariables false

/-!
Verification of the dynamic-environment reconciliation core.

The development shallowly embeds two Go source files:
  * `pkg/watches` (the ownership-annotation index: `addToQueue`, the
    `EnqueueRequestForAnnotation` event handlers, `AddToAnnotation`,
    `RemoveFromAnnotation`, `ContainsAnnotation`), and
  * `pkg/handlers/destinationrule_handler.go` (the `DestinationRuleHandler`:
    `Handle`, `GetStatus`, `GetHosts`, `createMissingDestinationRule`,
    `createOverridingDestinationRule`, `generateOverridingDestinationRule`,
    `locateDestinationRuleByHostname`, `calculateDRName`).

Strings are Lean `String`s; Go's `strings.Split`/`strings.Join` with the
one-character separators used by the source (`","`, `"/"`) are embedded as
character-level splitting and joining on `String.data`.  Go maps indexed by a
single key are embedded as association lists with Go's zero-value (`""`)
lookup semantics.  The Kubernetes object store is embedded as an in-memory
list of objects; `Get` misses are Go's `IsNotFound` branch, and the
transport-failure branches of the source, which the pure store can never
take, are kept in the embedding as dead `GoError` branches so that the
control flow matches the source.
-/

/-- Character-level embedding of Go's `strings.Split` (for a one-character
separator): the result is always nonempty, and splitting the empty list
yields a single empty piece, exactly as in Go. -/
def splitChar (c : Char) : List Char → List (List Char)
  | [] => [[]]
  | x :: xs =>
    if x = c then [] :: splitChar c xs
    else
      match splitChar c xs with
      | [] => [[x]]
      | y :: ys => (x :: y) :: ys

/-- Character-level embedding of Go's `strings.Join` (for a one-character
separator). -/
def joinChar (c : Char) : List (List Char) → List Char
  | [] => []
  | [l] => l
  | l :: l' :: ls => l ++ c :: joinChar c (l' :: ls)

/-- Go's `strings.Split` for a one-character separator, on Lean strings. -/
def goSplit (c : Char) (s : String) : List String :=
  (splitChar c s.data).map String.mk

/-- Go's `strings.Join` for a one-character separator, on Lean strings. -/
def goJoin (c : Char) (L : List String) : String :=
  String.mk (joinChar c (L.map String.data))

/-- Lookup in an association list (first binding wins), mirroring a Go map
read that distinguishes presence (`Option`). -/
def lookupK (m : List (String × String)) (k : String) : Option String :=
  (m.find? (fun p => p.1 == k)).map Prod.snd

/-- Go map indexing: a missing key reads as the zero value `""`. -/
def lookupD (m : List (String × String)) (k : String) : String :=
  (lookupK m k).getD ""

/-- Go map assignment `m[k] = v` on the association-list embedding: replaces
the first binding of `k`, or appends one. -/
def setA : List (String × String) → String → String → List (String × String)
  | [], k, v => [(k, v)]
  | p :: rest, k, v => if p.1 == k then (k, v) :: rest else p :: setA rest k v

/-- An owning resource reference, `k8s.io/apimachinery` `types.NamespacedName`:
`ns` embeds the Go field `Namespace`, `name` the field `Name`. -/
structure NamespacedName where
  ns : String
  name : String
deriving DecidableEq

/-- The `NamespacedNameAnnotation` key of package `watches`:
the annotation naming the dynamic-environment owners of a resource,
format `namespace/name` with comma-separated values. -/
def NamespacedNameAnnot : String := "riskified.com/dynamic-environment"

/-- A `client.Object` as the `watches` package sees it: only its annotations
matter.  `annots = none` embeds a Go object whose `GetAnnotations()` returns
`nil`. -/
structure KObject where
  annots : Option (List (String × String))
deriving DecidableEq

/-- Modelled from the spec: `helpers.StringSliceContains` is not under `src/`
(only its callers are).  Per the spec's ownership-index `Contains` operation
it is plain string-slice membership. -/
def StringSliceContains (s : String) (slice : List String) : Bool :=
  slice.contains s

/-- Modelled from the spec: `helpers.RemoveItemFromStringSlice` is not under
`src/`.  Per the spec's `Remove(owner, object)` operation (idempotent
removal) it removes every occurrence of the item from the slice. -/
def RemoveItemFromStringSlice (s : String) (slice : List String) : List String :=
  slice.filter (fun x => x != s)

/-- Modelled from the spec: `helpers.MatchNamespacedHost` is not under
`src/`.  Per the spec a candidate declared host matches the service host if
it equals it literally, or one of the two is the short name and the other is
the `name.namespace` FQDN for its namespace, checked in both directions. -/
def MatchNamespacedHost (serviceHost ns declaredHost declaredNs : String) : Bool :=
  serviceHost == declaredHost
    || declaredHost == serviceHost ++ "." ++ ns
    || serviceHost == declaredHost ++ "." ++ declaredNs

/-- Go's `strings.SplitN(s, sep, 2)` for a one-character separator: at most
two pieces, the second keeping any further separators. -/
def goSplitN2 (c : Char) (s : String) : List String :=
  match splitChar c s.data with
  | [] => []
  | [l] => [String.mk l]
  | l :: rest => [String.mk l, String.mk (joinChar c rest)]

/-- One loop iteration of `addToQueue` (src/unnamed/part_000, lines 68-76)
for a nonempty token: `values := strings.SplitN(env, "/", 2)` followed by
reading `values[0]` and `values[1]`.  When the token has no `/`, `SplitN`
yields a single element and the Go code's `values[1]` panics with an index
out of range; the panic is embedded as `none`. -/
def tokenToRequest (env : String) : Option NamespacedName :=
  match goSplitN2 '/' env with
  | [vns, vname] => some ⟨vns, vname⟩
  | _ => none

/-- Embeds `addToQueue` (src/unnamed/part_000, lines 64-78): splits the
`NamespacedNameAnnotation` value on commas, skips empty tokens, and enqueues
a reconciliation request per remaining token in order.  The result is the
list of requests added to the work queue; `none` embeds the run faulting
(panicking) on a malformed token. -/
def addToQueue (object : KObject) : Option (List NamespacedName) :=
  match object.annots with
  | none => some []
  | some annots =>
    ((goSplit ',' (lookupD annots NamespacedNameAnnot)).filter
      (fun env => env != "")).mapM tokenToRequest

/-- Embeds `EnqueueRequestForAnnotation.Create` (lines 43-45). -/
def watchCreate (object : KObject) : Option (List NamespacedName) :=
  addToQueue object

/-- Embeds `EnqueueRequestForAnnotation.Update` (lines 48-51): decodes the
new object first, then the old one, as the source does. -/
def watchUpdate (objectNew objectOld : KObject) : Option (List NamespacedName) :=
  match addToQueue objectNew with
  | none => none
  | some qNew =>
    match addToQueue objectOld with
    | none => none
    | some qOld => some (qNew ++ qOld)

/-- Embeds `EnqueueRequestForAnnotation.Delete` (lines 54-56). -/
def watchDelete (object : KObject) : Option (List NamespacedName) :=
  addToQueue object

/-- Embeds `EnqueueRequestForAnnotation.Generic` (lines 59-61). -/
def watchGeneric (object : KObject) : Option (List NamespacedName) :=
  addToQueue object

/-- The `namespace/name` token `fmt.Sprintf("%s/%s", owner.Namespace,
owner.Name)` used throughout the `watches` package. -/
def ownerToken (owner : NamespacedName) : String :=
  owner.ns ++ "/" ++ owner.name

/-- Core of `AddToAnnotation` (src/unnamed/part_000, lines 81-98), acting on
the annotations map (`none` embeds a `nil` map, replaced by an empty one). -/
def addToAnnotVal (owner : NamespacedName) (a : Option (List (String × String))) :
    List (String × String) :=
  let annots := a.getD []
  let existingDynamicEnvs := goSplit ',' (lookupD annots NamespacedNameAnnot)
  let currentDynamicEnv := ownerToken owner
  let updated :=
    if existingDynamicEnvs.length == 1 && existingDynamicEnvs.headD "" == "" then
      [currentDynamicEnv]
    else if ! StringSliceContains currentDynamicEnv existingDynamicEnvs then
      existingDynamicEnvs ++ [currentDynamicEnv]
    else existingDynamicEnvs
  setA annots NamespacedNameAnnot (goJoin ',' updated)

/-- Embeds `AddToAnnotation` (lines 81-98): appends the owner to the
`NamespacedNameAnnotation` value and stores the annotations back on the
object. -/
def AddToAnnotation' (owner : NamespacedName) (object : KObject) : KObject :=
  { object with annots := some (addToAnnotVal owner object.annots) }

/-- Embeds `RemoveFromAnnotation` (lines 101-114): removes the owner token
from the comma-separated value and stores the annotations back on the
object (always writing the key, even when nothing was removed). -/
def RemoveFromAnnotation' (owner : NamespacedName) (object : KObject) : KObject :=
  let annots := object.annots.getD []
  let existingDynamicEnvs := goSplit ',' (lookupD annots NamespacedNameAnnot)
  let currentDynamicEnv := ownerToken owner
  let removed := RemoveItemFromStringSlice currentDynamicEnv existingDynamicEnvs
  { object with annots := some (setA annots NamespacedNameAnnot (goJoin ',' removed)) }

/-- Embeds `ContainsAnnotation` (lines 117-125). -/
def ContainsAnnotation' (searchItem : NamespacedName) (object : KObject) : Bool :=
  match object.annots with
  | none => false
  | some annots =>
    StringSliceContains (ownerToken searchItem)
      (goSplit ',' (lookupD annots NamespacedNameAnnot))

/-- The `riskifiedv1alpha1.LifeCycleStatus` values this handler uses. -/
inductive LifeCycleStatus where
  | Missing
  | Initializing
  | Running
  | IgnoredMissingDR
deriving DecidableEq

/-- A `riskifiedv1alpha1.ResourceStatus` record: `{name, namespace, status}`. -/
structure ResourceStatus where
  name : String
  ns : String
  status : LifeCycleStatus
deriving DecidableEq

/-- An `istioapi.Subset`: a named routing target with a label map. -/
structure Subset where
  name : String
  labels : List (String × String)
deriving DecidableEq

/-- An `istionetwork.DestinationRule`: object metadata (name, namespace,
labels, annotations) plus the `Spec.Host` and `Spec.Subsets` fields. -/
structure DestinationRule where
  name : String
  ns : String
  labels : List (String × String)
  annots : Option (List (String × String))
  host : String
  subsets : List Subset
deriving DecidableEq

/-- The cluster object store restricted to DestinationRules, embedded as the
list of stored objects; `Create` appends, `Get` finds by name and namespace,
`List` filters by namespace. -/
abbrev Store := List DestinationRule

/-- Embeds the store `Get` by name and namespace; `none` is the `IsNotFound`
branch.  The transport-failure branch of the source is dead in the pure
store and is not represented. -/
def GetDR (st : Store) (nm nsp : String) : Option DestinationRule :=
  st.find? (fun o => o.name == nm && o.ns == nsp)

/-- A Go error as the handler observes it: the `goerrors.As(err,
&IgnoredMissing)` test reads the flag, and `fmt.Errorf("...: %w", err)`
wrapping preserves it while prepending context. -/
structure GoError where
  isIgnoredMissing : Bool
  msg : String
deriving DecidableEq

/-- Embeds `fmt.Errorf(ctx + ": %w", err)`: wraps with context, preserving
the `IgnoredMissing` identity as `errors.As` unwrapping does. -/
def wrapErr (ctx : String) (e : GoError) : GoError :=
  ⟨e.isIgnoredMissing, ctx ++ e.msg⟩

/-- Configuration of a `DestinationRuleHandler` (the immutable fields of the
Go struct; the Go fields mutated by `Handle` — `ignoredMissing`,
`activeHosts` — and the status entries accumulated through the
`StatusHandler` are split into `HState` and passed explicitly).  The
`client.Client`, logger and context fields are external capabilities
represented by the explicit `Store` argument of each operation. -/
structure DRHandler where
  UniqueName : String
  UniqueVersion : String
  Namespace : String
  VersionLabel : String
  DefaultVersion : String
  ServiceHosts : List String
  Owner : NamespacedName
deriving DecidableEq

/-- The mutable per-instance state of a `DestinationRuleHandler`:
`ignoredMissing` and `activeHosts` accumulate across calls on the same
instance, and `statuses` records the entries pushed through
`StatusHandler.AddDestinationRuleStatusEntry`. -/
structure HState where
  ignoredMissing : List String
  activeHosts : List String
  statuses : List ResourceStatus
deriving DecidableEq

/-- The fresh state of a newly constructed handler instance (nil slices). -/
def freshHState : HState := ⟨[], [], []⟩

/-- Embeds `calculateDRName` (destinationrule_handler.go, lines 225-227). -/
def calculateDRName (h : DRHandler) (serviceHost : String) : String :=
  h.UniqueName ++ "-" ++ serviceHost

/-- Whether a DestinationRule has a subset whose version-label value equals
the default version — the inner loop of `locateDestinationRuleByHostname`
(lines 201-205), with Go's zero-value map read. -/
def hasDefaultVersionSubset (h : DRHandler) (dr : DestinationRule) : Bool :=
  dr.subsets.any (fun s => lookupD s.labels h.VersionLabel == h.DefaultVersion)

/-- Embeds `locateDestinationRuleByHostname` (lines 194-211): lists the
DestinationRules in the handler namespace and returns the first whose host
matches and which carries a default-version subset; the `IgnoredMissing{}`
sentinel return is the `.error` case. -/
def locateDestinationRuleByHostname (h : DRHandler) (st : Store) (hostName : String) :
    Except GoError DestinationRule :=
  match (st.filter (fun dr => dr.ns == h.Namespace)).find? (fun dr =>
      MatchNamespacedHost hostName h.Namespace dr.host dr.ns
        && hasDefaultVersionSubset h dr) with
  | some dr => .ok dr
  | none => .error ⟨true, "IgnoredMissing"⟩

/-- Embeds `generateOverridingDestinationRule` (lines 167-192): resolves the
baseline, then builds the override object — name per `calculateDRName`,
labels `{versionLabel: uniqueVersion}`, host cloned from the baseline, and
exactly one subset `{name: uniqueVersion, labels: {versionLabel:
uniqueVersion}}`.  It performs no store write. -/
def generateOverridingDestinationRule (h : DRHandler) (st : Store) (serviceHost : String) :
    Except GoError DestinationRule :=
  match locateDestinationRuleByHostname h st serviceHost with
  | .error e => .error (wrapErr "locating default destination rule: " e)
  | .ok originalDestinationRule =>
    .ok { name := calculateDRName h serviceHost
          ns := h.Namespace
          labels := [(h.VersionLabel, h.UniqueVersion)]
          annots := none
          host := originalDestinationRule.host
          subsets := [⟨h.UniqueVersion, [(h.VersionLabel, h.UniqueVersion)]⟩] }

/-- Embeds `createOverridingDestinationRule` (lines 154-165): generates the
override, stamps the owner annotation onto it, and `Create`s it in the
store (the pure store's `Create` always succeeds, so that error branch is
dead).  Returns the store after the write. -/
def createOverridingDestinationRule (h : DRHandler) (st : Store)
    (drName serviceHost : String) : Except GoError Store :=
  match generateOverridingDestinationRule h st serviceHost with
  | .error e => .error (wrapErr "creating overriding destination rule: " e)
  | .ok newDestinationRule =>
    .ok (st ++ [{ newDestinationRule with
      annots := some (addToAnnotVal h.Owner newDestinationRule.annots) }])

/-- Embeds `setStatus` (lines 213-223): pushes a `ResourceStatus` entry
through the status handler (infallible in the pure embedding). -/
def setStatus (h : DRHandler) (s : HState) (drName : String)
    (status : LifeCycleStatus) : HState :=
  { s with statuses := s.statuses ++ [⟨drName, h.Namespace, status⟩] }

/-- Embeds `createMissingDestinationRule` (lines 137-152): records the
Initializing status, attempts create; an `IgnoredMissing` error appends the
host to `ignoredMissing` and succeeds, any other error is wrapped and
returned, and a successful create appends the host to `activeHosts`. -/
def createMissingDestinationRule (h : DRHandler) (s : HState) (st : Store)
    (drName serviceHost : String) : Except GoError (HState × Store) :=
  let s := setStatus h s drName .Initializing
  match createOverridingDestinationRule h st drName serviceHost with
  | .error e =>
    if e.isIgnoredMissing then
      .ok ({ s with ignoredMissing := s.ignoredMissing ++ [serviceHost] }, st)
    else
      .error (wrapErr "creating destination rule: " e)
  | .ok st' =>
    .ok ({ s with activeHosts := s.activeHosts ++ [serviceHost] }, st')

/-- One iteration of the `Handle` loop (lines 65-79): look the override up
by its deterministic name; found appends the host to `activeHosts`,
not-found goes through `createMissingDestinationRule`. -/
def handleHost (h : DRHandler) (s : HState) (st : Store) (serviceHost : String) :
    Except GoError (HState × Store) :=
  let drName := calculateDRName h serviceHost
  match GetDR st drName h.Namespace with
  | none => createMissingDestinationRule h s st drName serviceHost
  | some _ => .ok ({ s with activeHosts := s.activeHosts ++ [serviceHost] }, st)

/-- The `Handle` per-host loop over a host list, erroring out at the first
failing host as the source's early `return err` does. -/
def handleLoop (h : DRHandler) : List String → HState → Store →
    Except GoError (HState × Store)
  | [], s, st => .ok (s, st)
  | serviceHost :: rest, s, st =>
    match handleHost h s st serviceHost with
    | .error e => .error e
    | .ok (s', st') => handleLoop h rest s' st'

/-- Embeds `Handle` (lines 64-86): runs the per-host loop and, when the
resulting `activeHosts` is empty, returns the hard "no base destination
rules were found" error (the InvariantViolation of the spec). -/
def Handle (h : DRHandler) (s : HState) (st : Store) :
    Except GoError (HState × Store) :=
  match handleLoop h h.ServiceHosts s st with
  | .error e => .error e
  | .ok (s', st') =>
    if s'.activeHosts.length == 0 then
      .error ⟨false, "no base destination rules were found for subset: " ++ h.UniqueName⟩
    else
      .ok (s', st')

/-- Embeds `GetHosts` (lines 133-135). -/
def GetHosts (s : HState) : List String :=
  s.activeHosts

/-- The status record constructor local to `GetStatus` (lines 92-98). -/
def genStatus (h : DRHandler) (nm : String) (s : LifeCycleStatus) : ResourceStatus :=
  ⟨nm, h.Namespace, s⟩

/-- Embeds `GetStatus` (lines 90-118): a second, independent pass over the
configured hosts; existing override means Running, a missing one means
IgnoredMissingDR when the host is in the instance's `ignoredMissing` set and
Missing otherwise.  The store-failure branch is dead in the pure store. -/
def GetStatus (h : DRHandler) (s : HState) (st : Store) : List ResourceStatus :=
  h.ServiceHosts.map (fun sh =>
    let drName := calculateDRName h sh
    match GetDR st drName h.Namespace with
    | none =>
      if StringSliceContains sh s.ignoredMissing then
        genStatus h drName .IgnoredMissingDR
      else
        genStatus h drName .Missing
    | some _ => genStatus h drName .Running)

/-- A sample handler configuration used by concrete witnesses: unique name
"uniq", target version "v2", default version "v1", version label "version",
namespace "ns". -/
def exampleHandler : DRHandler :=
  { UniqueName := "uniq"
    UniqueVersion := "v2"
    Namespace := "ns"
    VersionLabel := "version"
    DefaultVersion := "v1"
    ServiceHosts := ["svc"]
    Owner := ⟨"ons", "oname"⟩ }

/-- A sample baseline DestinationRule for host "svc" carrying the
default-version subset. -/
def exampleBaseline : DestinationRule :=
  { name := "svc-default"
    ns := "ns"
    labels := []
    annots := none
    host := "svc"
    subsets := [⟨"v1", [("version", "v1")]⟩] }

/-- A sample pre-existing override object whose name matches
`calculateDRName exampleHandler "svc"`. -/
def exampleOverride : DestinationRule :=
  { name := "uniq-svc"
    ns := "ns"
    labels := [("version", "v2")]
    annots := none
    host := "svc"
    subsets := [⟨"v2", [("version", "v2")]⟩] }

/-- A sample watched object whose ownership annotation holds one owner. -/
def exampleObjOld : KObject := ⟨some [(NamespacedNameAnnot, "a/b")]⟩

/-- A sample watched object whose ownership annotation holds two owners. -/
def exampleObjNew : KObject := ⟨some [(NamespacedNameAnnot, "a/b,c/d")]⟩

/-- Decidable equality for `Except`, used to evaluate concrete runs of the
fallible handler operations. -/
instance {ε α : Type} [DecidableEq ε] [DecidableEq α] : DecidableEq (Except ε α) := fun x y =>
  match x, y with
  | .error e, .error f =>
    if h : e = f then isTrue (by rw [h]) else isFalse (by intro hh; cases hh; exact h rfl)
  | .error _, .ok _ => isFalse (by intro hh; cases hh)
  | .ok _, .error _ => isFalse (by intro hh; cases hh)
  | .ok a, .ok b =>
    if h : a = b then isTrue (by rw [h]) else isFalse (by intro hh; cases hh; exact h rfl)

/-- The comma-separated token list of an object's ownership annotation (the
decode the `watches` functions all start from). -/
def ownerTokens (object : KObject) : List String :=
  goSplit ',' (lookupD (object.annots.getD []) NamespacedNameAnnot)

/-- The override object that `createOverridingDestinationRule` deploys for a
service host once the baseline resolves: the generated rule with the owner
annotation stamped on (a proof-side abbreviation of the composite the source
builds in lines 154-192). -/
def generatedDR (h : DRHandler) (baseline : DestinationRule) (serviceHost : String) :
    DestinationRule :=
  { name := calculateDRName h serviceHost
    ns := h.Namespace
    labels := [(h.VersionLabel, h.UniqueVersion)]
    annots := some (addToAnnotVal h.Owner none)
    host := baseline.host
    subsets := [⟨h.UniqueVersion, [(h.VersionLabel, h.UniqueVersion)]⟩] }

/-- Whether a host's override is absent from the store and its baseline
resolution yields the IgnorableMissing outcome — the condition under which
one `Handle` pass records the host as ignored. -/
def baselineIgnored (h : DRHandler) (st : Store) (a : String) : Bool :=
  (GetDR st (calculateDRName h a) h.Namespace).isNone &&
    (match locateDestinationRuleByHostname h st a with
     | .ok _ => false
     | .error _ => true)

/-- A sample handler configuration with two hosts: "act" (whose override
already exists) and "ign" (whose baseline is missing). -/
def exampleHandler2 : DRHandler :=
  { UniqueName := "uniq"
    UniqueVersion := "v2"
    Namespace := "ns"
    VersionLabel := "version"
    DefaultVersion := "v1"
    ServiceHosts := ["act", "ign"]
    Owner := ⟨"ons", "oname"⟩ }

/-- A pre-existing override object for host "act" of `exampleHandler2`. -/
def exampleOverrideAct : DestinationRule :=
  { name := "uniq-act"
    ns := "ns"
    labels := [("version", "v2")]
    annots := none
    host := "act"
    subsets := [⟨"v2", [("version", "v2")]⟩] }

/-! ### Theorems -/

theorem splitChar_ne_nil (c : Char) (l : List Char) : splitChar c l ≠ [] := by
  cases l with
  | nil => simp [splitChar]
  | cons x xs =>
    simp only [splitChar]
    by_cases hx : x = c
    · simp [hx]
    · simp only [hx, if_false]
      cases h : splitChar c xs <;> simp

theorem joinChar_splitChar (c : Char) (l : List Char) :
    joinChar c (splitChar c l) = l := by
  induction l with
  | nil => simp [splitChar, joinChar]
  | cons x xs ih =>
    simp only [splitChar]
    by_cases hx : x = c
    · simp only [hx, if_true]
      cases h : splitChar c xs with
      | nil => exact absurd h (splitChar_ne_nil c xs)
      | cons y ys =>
        rw [h] at ih
        simp [joinChar, ih, hx]
    · simp only [hx, if_false]
      cases h : splitChar c xs with
      | nil => exact absurd h (splitChar_ne_nil c xs)
      | cons y ys =>
        rw [h] at ih
        cases ys with
        | nil => simp [joinChar] at ih ⊢; simp [ih]
        | cons z zs => simp [joinChar] at ih ⊢; simp [ih]

theorem splitChar_of_not_mem (c : Char) (l : List Char) (h : c ∉ l) :
    splitChar c l = [l] := by
  induction l with
  | nil => simp [splitChar]
  | cons x xs ih =>
    simp only [List.mem_cons, not_or] at h
    simp only [splitChar]
    have hx : ¬ x = c := fun hxc => h.1 hxc.symm
    simp only [hx, if_false]
    rw [ih h.2]

theorem splitChar_append_cons (c : Char) (x m : List Char) (hx : c ∉ x) :
    splitChar c (x ++ c :: m) = x :: splitChar c m := by
  induction x with
  | nil => simp [splitChar]
  | cons a as ih =>
    simp only [List.mem_cons, not_or] at hx
    have ha : ¬ a = c := fun hac => hx.1 hac.symm
    have ih' := ih hx.2
    simp [splitChar, ha, ih']

theorem not_mem_of_mem_splitChar (c : Char) (l x : List Char)
    (hx : x ∈ splitChar c l) : c ∉ x := by
  induction l generalizing x with
  | nil => simp [splitChar] at hx; simp [hx]
  | cons a as ih =>
    simp only [splitChar] at hx
    by_cases ha : a = c
    · simp only [ha, if_true, List.mem_cons] at hx
      rcases hx with h | h
      · simp [h]
      · exact ih x h
    · simp only [ha, if_false] at hx
      cases h : splitChar c as with
      | nil => exact absurd h (splitChar_ne_nil c as)
      | cons y ys =>
        rw [h] at hx
        simp only [List.mem_cons] at hx
        rcases hx with hxy | hxy
        · subst hxy
          intro hc
          rcases List.mem_cons.mp hc with hc | hc
          · exact ha hc.symm
          · exact ih y (h ▸ List.mem_cons_self y ys) hc
        · exact ih x (h ▸ List.mem_cons_of_mem y hxy)

theorem splitChar_joinChar (c : Char) (L : List (List Char)) (hne : L ≠ [])
    (hfree : ∀ x ∈ L, c ∉ x) : splitChar c (joinChar c L) = L := by
  induction L with
  | nil => exact absurd rfl hne
  | cons x xs ih =>
    cases xs with
    | nil =>
      simp only [joinChar]
      exact splitChar_of_not_mem c x (hfree x (List.mem_cons_self x []))
    | cons y ys =>
      simp only [joinChar]
      rw [splitChar_append_cons c x _ (hfree x (List.mem_cons_self _ _))]
      rw [ih (by simp) (fun z hz => hfree z (List.mem_cons_of_mem x hz))]

theorem goSplit_ne_nil (c : Char) (s : String) : goSplit c s ≠ [] := by
  simp only [goSplit, ne_eq, List.map_eq_nil_iff]
  exact splitChar_ne_nil c s.data

theorem goJoin_goSplit (c : Char) (s : String) : goJoin c (goSplit c s) = s := by
  simp only [goJoin, goSplit, List.map_map]
  have : (String.data ∘ String.mk) = id := rfl
  rw [this, List.map_id, joinChar_splitChar]

theorem goSplit_of_not_mem (c : Char) (s : String) (h : c ∉ s.data) :
    goSplit c s = [s] := by
  simp [goSplit, splitChar_of_not_mem c s.data h]

theorem not_mem_data_of_mem_goSplit (c : Char) (s x : String)
    (hx : x ∈ goSplit c s) : c ∉ x.data := by
  simp only [goSplit, List.mem_map] at hx
  obtain ⟨l, hl, hlx⟩ := hx
  have := not_mem_of_mem_splitChar c s.data l hl
  rw [← hlx]
  exact this

theorem goSplit_goJoin (c : Char) (L : List String) (hne : L ≠ [])
    (hfree : ∀ x ∈ L, c ∉ x.data) : goSplit c (goJoin c L) = L := by
  simp only [goSplit, goJoin]
  rw [splitChar_joinChar c (L.map String.data)
    (by simpa using hne)
    (by intro x hx
        simp only [List.mem_map] at hx
        obtain ⟨y, hy, hyx⟩ := hx
        rw [← hyx]
        exact hfree y hy)]
  simp only [List.map_map]
  have : (String.mk ∘ String.data) = id := rfl
  rw [this, List.map_id]

theorem lookupK_cons_pos (p : String × String) (rest : List (String × String))
    (k : String) (h : (p.1 == k) = true) : lookupK (p :: rest) k = some p.2 := by
  simp [lookupK, List.find?, h]

theorem lookupK_cons_neg (p : String × String) (rest : List (String × String))
    (k : String) (h : (p.1 == k) = false) : lookupK (p :: rest) k = lookupK rest k := by
  simp [lookupK, List.find?, h]

theorem lookupD_setA (m : List (String × String)) (k v : String) :
    lookupD (setA m k v) k = v := by
  induction m with
  | nil => simp [setA, lookupD, lookupK, List.find?]
  | cons p rest ih =>
    by_cases hp : p.1 = k
    · have hb : ((p.1 == k) : Bool) = true := by simp [hp]
      simp [setA, hb, lookupD, lookupK, List.find?]
    · have hb : ((p.1 == k) : Bool) = false := by simp [hp]
      simp only [setA, hb, Bool.false_eq_true, if_false]
      simp only [lookupD] at ih ⊢
      rw [lookupK_cons_neg p (setA rest k v) k hb]
      exact ih

theorem setA_setA (m : List (String × String)) (k v w : String) :
    setA (setA m k v) k w = setA m k w := by
  induction m with
  | nil => simp [setA]
  | cons p rest ih =>
    simp only [setA]
    by_cases hp : p.1 == k
    · simp [hp, setA]
    · simp [hp, setA, ih]

theorem setA_lookup_self (m : List (String × String)) (k v : String)
    (h : lookupK m k = some v) : setA m k v = m := by
  induction m with
  | nil => simp [lookupK, List.find?] at h
  | cons p rest ih =>
    by_cases hp : p.1 = k
    · have hb : ((p.1 == k) : Bool) = true := by simp [hp]
      rw [lookupK_cons_pos p rest k hb] at h
      have hv : p.2 = v := by injection h
      have hpe : (k, v) = p := by rw [← hp, ← hv]
      simp [setA, hb, hpe]
    · have hb : ((p.1 == k) : Bool) = false := by simp [hp]
      rw [lookupK_cons_neg p rest k hb] at h
      simp only [setA, hb, Bool.false_eq_true, if_false]
      rw [ih h]

theorem find?_append_some {α : Type} (p : α → Bool) (l₁ l₂ : List α) (a : α)
    (h : l₁.find? p = some a) : (l₁ ++ l₂).find? p = some a := by
  induction l₁ with
  | nil => simp [List.find?] at h
  | cons x xs ih =>
    by_cases hx : p x
    · rw [List.find?_cons_of_pos _ hx] at h
      simpa [List.find?_cons_of_pos _ hx] using h
    · rw [List.find?_cons_of_neg _ hx] at h
      simpa [List.find?_cons_of_neg _ hx] using ih h

theorem find?_append_none {α : Type} (p : α → Bool) (l₁ l₂ : List α)
    (h : l₁.find? p = none) : (l₁ ++ l₂).find? p = l₂.find? p := by
  induction l₁ with
  | nil => simp
  | cons x xs ih =>
    by_cases hx : p x
    · rw [List.find?_cons_of_pos _ hx] at h
      simp at h
    · rw [List.find?_cons_of_neg _ hx] at h
      simpa [List.find?_cons_of_neg _ hx] using ih h

/-- C1: the claim says that decoding an ownership annotation containing a
malformed token (no `namespace/name` separator) skips that token and still
emits requests for the well-formed ones.  The source instead evaluates
`values[1]` on the one-element result of `SplitN`, so the decode faults
(index-out-of-range panic, embedded as `none`) on the annotation value
`"ns1/name1,malformed"`, while the fully well-formed value decodes to its
requests. -/
theorem C1_malformed_token_faults :
    addToQueue ⟨some [(NamespacedNameAnnot, "ns1/name1,malformed")]⟩ = none ∧
    addToQueue ⟨some [(NamespacedNameAnnot, "ns1/name1,ns2/name2")]⟩ =
      some [⟨"ns1", "name1"⟩, ⟨"ns2", "name2"⟩] := by
  exact ⟨by decide, by decide⟩

/-- C5: whenever the `Handle` per-host loop finishes with an empty
active-host list — in particular when every configured host was added to the
ignored set — `Handle` returns the hard "no base destination rules were
found" (InvariantViolation) error instead of succeeding. -/
theorem C5_zero_active_hosts_invariant_violation (h : DRHandler) (s : HState)
    (st : Store) (s' : HState) (st' : Store)
    (hloop : handleLoop h h.ServiceHosts s st = .ok (s', st'))
    (hempty : s'.activeHosts = []) :
    Handle h s st = .error ⟨false,
      "no base destination rules were found for subset: " ++ h.UniqueName⟩ := by
  simp [Handle, hloop, hempty]

/-- C5 witness: a single configured host with an empty store resolves
IgnorableMissing, the loop ends with no active host, and `Handle` errors. -/
theorem C5_witness :
    handleLoop exampleHandler exampleHandler.ServiceHosts freshHState [] =
      .ok (⟨["svc"], [], [⟨"uniq-svc", "ns", .Initializing⟩]⟩, []) ∧
    Handle exampleHandler freshHState [] = .error ⟨false,
      "no base destination rules were found for subset: " ++ exampleHandler.UniqueName⟩ :=
  ⟨by decide,
    C5_zero_active_hosts_invariant_violation exampleHandler freshHState []
      ⟨["svc"], [], [⟨"uniq-svc", "ns", .Initializing⟩]⟩ [] (by decide) (by decide)⟩

/-- C6: an IgnorableMissing outcome from baseline resolution is never
propagated as an error: `createMissingDestinationRule` succeeds, appends the
host to the ignored set (leaving the active set and the store unchanged),
and the `Handle` loop continues with the remaining hosts. -/
theorem C6_ignorable_missing_not_fatal (h : DRHandler) (s : HState) (st : Store)
    (drName serviceHost : String) (e : GoError)
    (hloc : locateDestinationRuleByHostname h st serviceHost = .error e) :
    createMissingDestinationRule h s st drName serviceHost =
      .ok (⟨s.ignoredMissing ++ [serviceHost], s.activeHosts,
            s.statuses ++ [⟨drName, h.Namespace, .Initializing⟩]⟩, st) ∧
    (∀ rest, GetDR st (calculateDRName h serviceHost) h.Namespace = none →
      handleLoop h (serviceHost :: rest) s st =
        handleLoop h rest ⟨s.ignoredMissing ++ [serviceHost], s.activeHosts,
          s.statuses ++ [⟨calculateDRName h serviceHost, h.Namespace, .Initializing⟩]⟩ st) := by
  have he : e = ⟨true, "IgnoredMissing"⟩ := by
    unfold locateDestinationRuleByHostname at hloc
    cases hfind : (st.filter (fun dr => dr.ns == h.Namespace)).find? (fun dr =>
        MatchNamespacedHost serviceHost h.Namespace dr.host dr.ns
          && hasDefaultVersionSubset h dr) with
    | none => rw [hfind] at hloc; simpa using hloc.symm
    | some dr' => rw [hfind] at hloc; simp at hloc
  subst he
  have hgen : ∀ dn, createMissingDestinationRule h s st dn serviceHost =
      .ok (⟨s.ignoredMissing ++ [serviceHost], s.activeHosts,
            s.statuses ++ [⟨dn, h.Namespace, .Initializing⟩]⟩, st) := by
    intro dn
    simp [createMissingDestinationRule, setStatus, createOverridingDestinationRule,
      generateOverridingDestinationRule, hloc, wrapErr]
  refine ⟨hgen drName, ?_⟩
  intro rest hGet
  have hh : handleHost h s st serviceHost =
      .ok (⟨s.ignoredMissing ++ [serviceHost], s.activeHosts,
        s.statuses ++ [⟨calculateDRName h serviceHost, h.Namespace, .Initializing⟩]⟩, st) := by
    simp only [handleHost, hGet]
    exact hgen (calculateDRName h serviceHost)
  simp [handleLoop, hh]

/-- C6 witness: with an empty store the baseline resolution for "svc" yields
the IgnorableMissing outcome, and `createMissingDestinationRule` succeeds,
recording the host as ignored. -/
theorem C6_witness :
    locateDestinationRuleByHostname exampleHandler [] "svc" =
      .error ⟨true, "IgnoredMissing"⟩ ∧
    createMissingDestinationRule exampleHandler freshHState [] "uniq-svc" "svc" =
      .ok (⟨freshHState.ignoredMissing ++ ["svc"], freshHState.activeHosts,
            freshHState.statuses ++ [⟨"uniq-svc", exampleHandler.Namespace,
              .Initializing⟩]⟩, []) :=
  ⟨by decide,
    (C6_ignorable_missing_not_fatal exampleHandler freshHState [] "uniq-svc" "svc"
      ⟨true, "IgnoredMissing"⟩ (by decide)).1⟩

/-- C7: a candidate declared host matches a service host iff one equals the
other literally or one is the short name and the other the `name.namespace`
FQDN, in either direction; `locateDestinationRuleByHostname` only returns
candidates matching under this rule; concretely, service "svc" in namespace
"ns" matches declared hosts "svc" and "svc.ns" and rejects "svc.other-ns"
and "other-svc". -/
theorem C7_host_matching :
    (∀ serviceHost nsp declaredHost declaredNs : String,
      MatchNamespacedHost serviceHost nsp declaredHost declaredNs = true ↔
        (serviceHost = declaredHost ∨
          declaredHost = serviceHost ++ "." ++ nsp ∨
          serviceHost = declaredHost ++ "." ++ declaredNs)) ∧
    (∀ (h : DRHandler) (st : Store) (hostName : String) (dr : DestinationRule),
      locateDestinationRuleByHostname h st hostName = .ok dr →
        MatchNamespacedHost hostName h.Namespace dr.host dr.ns = true) ∧
    MatchNamespacedHost "svc" "ns" "svc" "ns" = true ∧
    MatchNamespacedHost "svc" "ns" "svc.ns" "ns" = true ∧
    MatchNamespacedHost "svc" "ns" "svc.other-ns" "ns" = false ∧
    MatchNamespacedHost "svc" "ns" "other-svc" "ns" = false := by
  refine ⟨?_, ?_, by decide, by decide, by decide, by decide⟩
  · intro a b c d
    simp [MatchNamespacedHost, or_assoc]
  · intro h st hostName dr hloc
    unfold locateDestinationRuleByHostname at hloc
    cases hfind : (st.filter (fun dr => dr.ns == h.Namespace)).find? (fun dr =>
        MatchNamespacedHost hostName h.Namespace dr.host dr.ns
          && hasDefaultVersionSubset h dr) with
    | none => rw [hfind] at hloc; simp at hloc
    | some founddr =>
      rw [hfind] at hloc
      have hdr : founddr = dr := by simpa using hloc
      have hp := List.find?_some hfind
      rw [← hdr]
      simp only [Bool.and_eq_true] at hp
      exact hp.1

/-- C7 witness: the FQDN direction of the matching rule at concrete
strings. -/
theorem C7_witness : MatchNamespacedHost "svc" "ns" "svc.ns" "ns" = true :=
  C7_host_matching.2.2.2.1

/-- C8: when the baseline for a service host resolves,
`generateOverridingDestinationRule` returns (without writing to the store —
it takes the store purely as an input) an object named by the deterministic
concatenation rule, with host cloned from the baseline, labels
`{versionLabel: uniqueVersion}`, and exactly one subset
`{name: uniqueVersion, labels: {versionLabel: uniqueVersion}}`. -/
theorem C8_generate_shape (h : DRHandler) (st : Store) (serviceHost : String)
    (dr : DestinationRule)
    (hloc : locateDestinationRuleByHostname h st serviceHost = .ok dr) :
    generateOverridingDestinationRule h st serviceHost =
      .ok { name := h.UniqueName ++ "-" ++ serviceHost
            ns := h.Namespace
            labels := [(h.VersionLabel, h.UniqueVersion)]
            annots := none
            host := dr.host
            subsets := [⟨h.UniqueVersion, [(h.VersionLabel, h.UniqueVersion)]⟩] } := by
  simp [generateOverridingDestinationRule, hloc, calculateDRName]

/-- C8 witness: generation against a store holding the sample baseline. -/
theorem C8_witness :
    locateDestinationRuleByHostname exampleHandler [exampleBaseline] "svc" =
      .ok exampleBaseline ∧
    generateOverridingDestinationRule exampleHandler [exampleBaseline] "svc" =
      .ok { name := exampleHandler.UniqueName ++ "-" ++ "svc"
            ns := exampleHandler.Namespace
            labels := [(exampleHandler.VersionLabel, exampleHandler.UniqueVersion)]
            annots := none
            host := exampleBaseline.host
            subsets := [⟨exampleHandler.UniqueVersion,
              [(exampleHandler.VersionLabel, exampleHandler.UniqueVersion)]⟩] } :=
  ⟨by decide,
    C8_generate_shape exampleHandler [exampleBaseline] "svc" exampleBaseline (by decide)⟩

/-- C10: for an update event the fan-out decodes both the new and the old
object and emits a request per owner found in either (new requests first,
as the source enqueues), while create, delete and generic events decode the
single carried object. -/
theorem C10_fanout_requests (objectNew objectOld : KObject)
    (qNew qOld : List NamespacedName)
    (hN : addToQueue objectNew = some qNew) (hO : addToQueue objectOld = some qOld) :
    watchUpdate objectNew objectOld = some (qNew ++ qOld) ∧
    (∀ r, r ∈ qNew ++ qOld ↔ r ∈ qNew ∨ r ∈ qOld) ∧
    watchCreate objectNew = some qNew ∧
    watchDelete objectOld = some qOld ∧
    watchGeneric objectNew = some qNew := by
  refine ⟨?_, ?_, ?_, ?_, ?_⟩ <;>
    simp [watchUpdate, watchCreate, watchDelete, watchGeneric, hN, hO]

/-- C10 witness: an update whose new object carries owners a/b and c/d and
whose old object carries a/b emits all three requests. -/
theorem C10_witness :
    watchUpdate exampleObjNew exampleObjOld =
      some ([⟨"a", "b"⟩, ⟨"c", "d"⟩] ++ [⟨"a", "b"⟩]) :=
  (C10_fanout_requests exampleObjNew exampleObjOld [⟨"a", "b"⟩, ⟨"c", "d"⟩]
    [⟨"a", "b"⟩] (by decide) (by decide)).1

theorem string_append_data (a b : String) : (a ++ b).data = a.data ++ b.data := rfl

theorem string_mk_data (s : String) : String.mk s.data = s := rfl

theorem ownerToken_ne_empty (owner : NamespacedName) : ownerToken owner ≠ "" := by
  intro h
  have hd : (ownerToken owner).data = [] := by rw [h]
  rw [ownerToken, string_append_data, string_append_data] at hd
  simp at hd

theorem goJoin_singleton (c : Char) (s : String) : goJoin c [s] = s := rfl

/-- C4 counterexample: the claim says removing a non-present owner leaves the
object's annotations exactly as they were, and in particular an object with
no annotations does not gain the annotation key.  On an object with `nil`
annotations the source builds an empty map, writes the (empty) joined value
back under the key, and calls `SetAnnotations`, so the object does gain the
key with an empty value. -/
theorem C4_counterexample :
    RemoveFromAnnotation' ⟨"ns", "n"⟩ ⟨none⟩ ≠ (⟨none⟩ : KObject) ∧
    RemoveFromAnnotation' ⟨"ns", "n"⟩ ⟨none⟩ =
      ⟨some [(NamespacedNameAnnot, "")]⟩ := by
  exact ⟨by decide, by decide⟩

/-- C4 amended: removing a non-present owner never changes the annotation
value: when the object's annotations map already carries the annotation key,
the removal is a full no-op on the object; when the key is absent (or the
map is nil) the token content is still unchanged but the key itself is
(re)written with the empty value. -/
theorem C4_remove_absent (owner : NamespacedName) :
    (∀ (object : KObject) (m : List (String × String)) (v : String),
      object.annots = some m →
      lookupK m NamespacedNameAnnot = some v →
      ownerToken owner ∉ goSplit ',' v →
      RemoveFromAnnotation' owner object = object) ∧
    (∀ m : List (String × String),
      lookupK m NamespacedNameAnnot = none →
      RemoveFromAnnotation' owner ⟨some m⟩ =
        ⟨some (setA m NamespacedNameAnnot "")⟩) := by
  constructor
  · intro object m v hm hv habs
    have hfilter : RemoveItemFromStringSlice (ownerToken owner) (goSplit ',' v)
        = goSplit ',' v := by
      apply List.filter_eq_self.mpr
      intro x hx
      have hne : x ≠ ownerToken owner := fun he => habs (he ▸ hx)
      simpa using hne
    have hlook : lookupD m NamespacedNameAnnot = v := by
      simp [lookupD, hv]
    cases object with
    | mk a =>
      simp only at hm
      subst hm
      simp only [RemoveFromAnnotation', Option.getD_some, hlook, hfilter,
        goJoin_goSplit, setA_lookup_self m NamespacedNameAnnot v hv]
  · intro m hnone
    have hlook : lookupD m NamespacedNameAnnot = "" := by
      simp [lookupD, hnone]
    have hsplit : goSplit ',' "" = [""] := by decide
    have hfilter : RemoveItemFromStringSlice (ownerToken owner) [""] = [""] := by
      have hne : ("" : String) ≠ ownerToken owner :=
        fun he => ownerToken_ne_empty owner he.symm
      simp [RemoveItemFromStringSlice, hne]
    simp only [RemoveFromAnnotation', Option.getD_some, hlook, hsplit, hfilter,
      goJoin_singleton]

/-- C4 witness: removing the non-present owner ns/n from an object whose
annotation holds only the token x/y leaves the object unchanged. -/
theorem C4_witness :
    RemoveFromAnnotation' ⟨"ns", "n"⟩ ⟨some [(NamespacedNameAnnot, "x/y")]⟩ =
      ⟨some [(NamespacedNameAnnot, "x/y")]⟩ :=
  (C4_remove_absent ⟨"ns", "n"⟩).1 ⟨some [(NamespacedNameAnnot, "x/y")]⟩
    [(NamespacedNameAnnot, "x/y")] "x/y" rfl (by decide) (by decide)

/-- When the owner token is already among the decoded tokens (and hence the
token list is not the single empty string), `AddToAnnotation` takes its
no-op branch: it rewrites the key with the re-joined, unchanged value. -/
theorem addToAnnotVal_of_mem (owner : NamespacedName) (m : List (String × String))
    (hmem : ownerToken owner ∈ goSplit ',' (lookupD m NamespacedNameAnnot)) :
    addToAnnotVal owner (some m) =
      setA m NamespacedNameAnnot (lookupD m NamespacedNameAnnot) := by
  have htokne := ownerToken_ne_empty owner
  have hb1 : ((goSplit ',' (lookupD m NamespacedNameAnnot)).length == 1 &&
      ((goSplit ',' (lookupD m NamespacedNameAnnot)).headD "" == "")) = false := by
    cases hl : goSplit ',' (lookupD m NamespacedNameAnnot) with
    | nil => exact absurd hl (goSplit_ne_nil _ _)
    | cons x xs =>
      cases xs with
      | nil =>
        rw [hl] at hmem
        have hx : ownerToken owner = x := by simpa using hmem
        subst hx
        simp [htokne]
      | cons y ys => simp
  have hb2 : StringSliceContains (ownerToken owner)
      (goSplit ',' (lookupD m NamespacedNameAnnot)) = true :=
    List.elem_eq_true_of_mem hmem
  simp only [addToAnnotVal, Option.getD_some, hb1, Bool.false_eq_true, if_false,
    hb2, Bool.not_true, goJoin_goSplit]

/-- Re-applying `AddToAnnotation` when the owner token is present in the
once-updated annotation is a no-op on the annotations map. -/
theorem addToAnnotVal_idem (owner : NamespacedName)
    (a : Option (List (String × String)))
    (hmem : ownerToken owner ∈
      goSplit ',' (lookupD (addToAnnotVal owner a) NamespacedNameAnnot)) :
    addToAnnotVal owner (some (addToAnnotVal owner a)) = addToAnnotVal owner a := by
  obtain ⟨w, hw⟩ : ∃ w, addToAnnotVal owner a = setA (a.getD []) NamespacedNameAnnot w :=
    ⟨_, rfl⟩
  rw [addToAnnotVal_of_mem owner (addToAnnotVal owner a) hmem, hw, lookupD_setA,
    setA_setA]

/-- C9 amended: for an owner whose `namespace/name` serialization is
comma-free (every legal Kubernetes owner) and an object without a
pre-existing duplicate of that owner token, `AddToAnnotation` is idempotent
— the second application is a no-op — and after one application the
annotation carries exactly one token for the owner.  (The unamended claim,
over all owners, fails when the serialized token itself contains a comma;
see the counterexample.) -/
theorem C9_encode_idempotent (owner : NamespacedName) (object : KObject)
    (hfree : ',' ∉ (ownerToken owner).data)
    (hcount : List.count (ownerToken owner) (ownerTokens object) ≤ 1) :
    AddToAnnotation' owner (AddToAnnotation' owner object) =
      AddToAnnotation' owner object ∧
    List.count (ownerToken owner) (ownerTokens (AddToAnnotation' owner object)) = 1 := by
  obtain ⟨a⟩ := object
  have htokne := ownerToken_ne_empty owner
  suffices h : ownerToken owner ∈
      goSplit ',' (lookupD (addToAnnotVal owner a) NamespacedNameAnnot) ∧
      List.count (ownerToken owner)
        (goSplit ',' (lookupD (addToAnnotVal owner a) NamespacedNameAnnot)) = 1 by
    refine ⟨?_, h.2⟩
    show (⟨some (addToAnnotVal owner (some (addToAnnotVal owner a)))⟩ : KObject) =
      ⟨some (addToAnnotVal owner a)⟩
    rw [addToAnnotVal_idem owner a h.1]
  have hcount' : List.count (ownerToken owner)
      (goSplit ',' (lookupD (a.getD []) NamespacedNameAnnot)) ≤ 1 := hcount
  by_cases hb1 : ((goSplit ',' (lookupD (a.getD []) NamespacedNameAnnot)).length == 1 &&
      ((goSplit ',' (lookupD (a.getD []) NamespacedNameAnnot)).headD "" == "")) = true
  · have h1 : addToAnnotVal owner a =
        setA (a.getD []) NamespacedNameAnnot (ownerToken owner) := by
      simp only [addToAnnotVal, hb1, if_true, goJoin_singleton]
    have hl1 : lookupD (addToAnnotVal owner a) NamespacedNameAnnot =
        ownerToken owner := by
      rw [h1, lookupD_setA]
    rw [hl1, goSplit_of_not_mem ',' _ hfree]
    exact ⟨List.mem_singleton_self _, List.count_singleton_self _⟩
  · have hb1' : ((goSplit ',' (lookupD (a.getD []) NamespacedNameAnnot)).length == 1 &&
        ((goSplit ',' (lookupD (a.getD []) NamespacedNameAnnot)).headD "" == "")) = false :=
      Bool.not_eq_true _ ▸ hb1
    by_cases hb2 : StringSliceContains (ownerToken owner)
        (goSplit ',' (lookupD (a.getD []) NamespacedNameAnnot)) = true
    · have hmem0 : ownerToken owner ∈
          goSplit ',' (lookupD (a.getD []) NamespacedNameAnnot) :=
        List.mem_of_elem_eq_true hb2
      have h1 : addToAnnotVal owner a =
          setA (a.getD []) NamespacedNameAnnot
            (lookupD (a.getD []) NamespacedNameAnnot) :=
        addToAnnotVal_of_mem owner (a.getD []) hmem0
      have hl1 : lookupD (addToAnnotVal owner a) NamespacedNameAnnot =
          lookupD (a.getD []) NamespacedNameAnnot := by
        rw [h1, lookupD_setA]
      rw [hl1]
      exact ⟨hmem0, Nat.le_antisymm hcount' (List.count_pos_iff.mpr hmem0)⟩
    · have hb2' : StringSliceContains (ownerToken owner)
          (goSplit ',' (lookupD (a.getD []) NamespacedNameAnnot)) = false :=
        Bool.not_eq_true _ ▸ hb2
      have hnotmem : ownerToken owner ∉
          goSplit ',' (lookupD (a.getD []) NamespacedNameAnnot) := by
        intro hm
        have hx : StringSliceContains (ownerToken owner)
            (goSplit ',' (lookupD (a.getD []) NamespacedNameAnnot)) = true :=
          List.elem_eq_true_of_mem hm
        rw [hx] at hb2'
        exact Bool.noConfusion hb2'
      have h1 : addToAnnotVal owner a =
          setA (a.getD []) NamespacedNameAnnot
            (goJoin ',' (goSplit ',' (lookupD (a.getD []) NamespacedNameAnnot)
              ++ [ownerToken owner])) := by
        simp only [addToAnnotVal, hb1', Bool.false_eq_true, if_false, hb2',
          Bool.not_false, if_true]
      have hfreeL : ∀ x ∈ goSplit ',' (lookupD (a.getD []) NamespacedNameAnnot)
          ++ [ownerToken owner], ',' ∉ x.data := by
        intro x hx
        rcases List.mem_append.mp hx with hx | hx
        · exact not_mem_data_of_mem_goSplit ',' _ x hx
        · rw [List.mem_singleton.mp hx]
          exact hfree
      have hsp : goSplit ',' (goJoin ','
          (goSplit ',' (lookupD (a.getD []) NamespacedNameAnnot)
            ++ [ownerToken owner])) =
          goSplit ',' (lookupD (a.getD []) NamespacedNameAnnot)
            ++ [ownerToken owner] :=
        goSplit_goJoin ',' _ (by simp) hfreeL
      have hl1 : lookupD (addToAnnotVal owner a) NamespacedNameAnnot =
          goJoin ',' (goSplit ',' (lookupD (a.getD []) NamespacedNameAnnot)
            ++ [ownerToken owner]) := by
        rw [h1, lookupD_setA]
      rw [hl1, hsp]
      constructor
      · exact List.mem_append_right _ (List.mem_singleton_self _)
      · rw [List.count_append, List.count_eq_zero.mpr hnotmem,
          List.count_singleton_self]

/-- C9 counterexample: for the owner with namespace "a,b" and name "x" the
claim fails: the first `AddToAnnotation` stores the token "a,b/x", the
second splits that value into ["a", "b/x"], fails to find the owner token,
and appends it again, so the second application is not a no-op and the
annotation does not hold exactly one token for the owner. -/
theorem C9_counterexample :
    AddToAnnotation' ⟨"a,b", "x"⟩ (AddToAnnotation' ⟨"a,b", "x"⟩ ⟨none⟩) ≠
      AddToAnnotation' ⟨"a,b", "x"⟩ ⟨none⟩ ∧
    AddToAnnotation' ⟨"a,b", "x"⟩ ⟨none⟩ =
      ⟨some [(NamespacedNameAnnot, "a,b/x")]⟩ ∧
    AddToAnnotation' ⟨"a,b", "x"⟩ (AddToAnnotation' ⟨"a,b", "x"⟩ ⟨none⟩) =
      ⟨some [(NamespacedNameAnnot, "a,b/x,a,b/x")]⟩ := by
  exact ⟨by decide, by decide, by decide⟩

/-- C9 witness: encoding the comma-free owner ns/n twice onto an
annotation-less object is idempotent and leaves exactly one token. -/
theorem C9_witness :
    AddToAnnotation' ⟨"ns", "n"⟩ (AddToAnnotation' ⟨"ns", "n"⟩ ⟨none⟩) =
      AddToAnnotation' ⟨"ns", "n"⟩ ⟨none⟩ ∧
    List.count (ownerToken ⟨"ns", "n"⟩)
      (ownerTokens (AddToAnnotation' ⟨"ns", "n"⟩ ⟨none⟩)) = 1 :=
  C9_encode_idempotent ⟨"ns", "n"⟩ ⟨none⟩ (by decide) (by decide)

theorem locate_error_eq (h : DRHandler) (st : Store) (sh : String) (e : GoError)
    (hl : locateDestinationRuleByHostname h st sh = .error e) :
    e = ⟨true, "IgnoredMissing"⟩ := by
  unfold locateDestinationRuleByHostname at hl
  cases hfind : (st.filter (fun dr => dr.ns == h.Namespace)).find? (fun dr =>
      MatchNamespacedHost sh h.Namespace dr.host dr.ns
        && hasDefaultVersionSubset h dr) with
  | none => rw [hfind] at hl; simpa using hl.symm
  | some dr => rw [hfind] at hl; simp at hl

theorem GetDR_append_some (st ext : Store) (nm nsp : String) (d : DestinationRule)
    (hg : GetDR st nm nsp = some d) : GetDR (st ++ ext) nm nsp = some d :=
  find?_append_some _ st ext d hg

theorem GetDR_append_none (st ext : Store) (nm nsp : String)
    (hg : GetDR st nm nsp = none) : GetDR (st ++ ext) nm nsp = GetDR ext nm nsp :=
  find?_append_none _ st ext hg

theorem GetDR_cons_self (o : DestinationRule) (ext : Store) (nm nsp : String)
    (h1 : o.name = nm) (h2 : o.ns = nsp) : GetDR (o :: ext) nm nsp = some o := by
  simp [GetDR, List.find?, h1, h2]

theorem calculateDRName_inj (h : DRHandler) (a b : String)
    (he : calculateDRName h a = calculateDRName h b) : a = b := by
  have hd := congrArg String.data he
  simp only [calculateDRName, string_append_data, List.append_assoc] at hd
  have h1 := List.append_cancel_left hd
  have h2 := List.append_cancel_left h1
  rw [← string_mk_data a, ← string_mk_data b, h2]

theorem generatedDR_nondefault (h : DRHandler) (baseline : DestinationRule)
    (serviceHost : String) (hv : h.UniqueVersion ≠ h.DefaultVersion) :
    hasDefaultVersionSubset h (generatedDR h baseline serviceHost) = false := by
  simp [hasDefaultVersionSubset, generatedDR, lookupD, lookupK, List.find?, hv]

theorem createOverriding_ok (h : DRHandler) (st : Store) (dn sh : String)
    (dr0 : DestinationRule)
    (hl : locateDestinationRuleByHostname h st sh = .ok dr0) :
    createOverridingDestinationRule h st dn sh = .ok (st ++ [generatedDR h dr0 sh]) := by
  simp [createOverridingDestinationRule, generateOverridingDestinationRule, hl,
    generatedDR]

theorem handleHost_found (h : DRHandler) (s : HState) (st : Store) (sh : String)
    (d : DestinationRule)
    (hg : GetDR st (calculateDRName h sh) h.Namespace = some d) :
    handleHost h s st sh = .ok ({ s with activeHosts := s.activeHosts ++ [sh] }, st) := by
  simp [handleHost, hg]

theorem handleHost_created (h : DRHandler) (s : HState) (st : Store) (sh : String)
    (dr0 : DestinationRule)
    (hg : GetDR st (calculateDRName h sh) h.Namespace = none)
    (hl : locateDestinationRuleByHostname h st sh = .ok dr0) :
    handleHost h s st sh = .ok
      (⟨s.ignoredMissing, s.activeHosts ++ [sh],
        s.statuses ++ [⟨calculateDRName h sh, h.Namespace, .Initializing⟩]⟩,
       st ++ [generatedDR h dr0 sh]) := by
  simp [handleHost, hg, createMissingDestinationRule, setStatus,
    createOverriding_ok h st (calculateDRName h sh) sh dr0 hl]

theorem handleHost_ignored (h : DRHandler) (s : HState) (st : Store) (sh : String)
    (e : GoError)
    (hg : GetDR st (calculateDRName h sh) h.Namespace = none)
    (hl : locateDestinationRuleByHostname h st sh = .error e) :
    handleHost h s st sh = .ok
      (⟨s.ignoredMissing ++ [sh], s.activeHosts,
        s.statuses ++ [⟨calculateDRName h sh, h.Namespace, .Initializing⟩]⟩, st) := by
  have he := locate_error_eq h st sh e hl
  subst he
  simp [handleHost, hg, createMissingDestinationRule, setStatus,
    createOverridingDestinationRule, generateOverridingDestinationRule, hl, wrapErr]

theorem locate_append_nondefault (h : DRHandler) (st ext : Store) (sh : String)
    (hnd : ∀ o ∈ ext, hasDefaultVersionSubset h o = false) :
    locateDestinationRuleByHostname h (st ++ ext) sh =
      locateDestinationRuleByHostname h st sh := by
  unfold locateDestinationRuleByHostname
  rw [List.filter_append]
  cases hfa : (st.filter (fun dr => dr.ns == h.Namespace)).find? (fun dr =>
      MatchNamespacedHost sh h.Namespace dr.host dr.ns
        && hasDefaultVersionSubset h dr) with
  | some dr =>
    rw [find?_append_some _ _ _ dr hfa]
  | none =>
    rw [find?_append_none _ _ _ hfa]
    have hext : (ext.filter (fun dr => dr.ns == h.Namespace)).find? (fun dr =>
        MatchNamespacedHost sh h.Namespace dr.host dr.ns
          && hasDefaultVersionSubset h dr) = none := by
      apply List.find?_eq_none.mpr
      intro o ho
      have hom := List.mem_of_mem_filter ho
      simp [hnd o hom]
    rw [hext]

/-- Full characterization of one `Handle` loop pass (for a nondegenerate
configuration, target version distinct from the default version): the loop
never errors; the store grows by override objects, none of which carries a
default-version subset and each of which is named for one of the processed
hosts; the active-host additions are exactly the hosts that have an override
object in the final store; and every host without an override in the final
store still resolves IgnorableMissing against the final store. -/
theorem handleLoop_run (h : DRHandler) (hv : h.UniqueVersion ≠ h.DefaultVersion) :
    ∀ (hosts : List String) (s : HState) (st : Store),
    ∃ (ext : Store) (da di : List String) (ds : List ResourceStatus),
      handleLoop h hosts s st =
        .ok (⟨s.ignoredMissing ++ di, s.activeHosts ++ da, s.statuses ++ ds⟩,
          st ++ ext) ∧
      (∀ o ∈ ext, hasDefaultVersionSubset h o = false ∧ o.ns = h.Namespace ∧
        ∃ b ∈ hosts, o.name = calculateDRName h b) ∧
      (∀ x, x ∈ da ↔ (x ∈ hosts ∧
        (GetDR (st ++ ext) (calculateDRName h x) h.Namespace).isSome = true)) ∧
      (∀ a ∈ hosts, GetDR (st ++ ext) (calculateDRName h a) h.Namespace = none →
        locateDestinationRuleByHostname h (st ++ ext) a =
          .error ⟨true, "IgnoredMissing"⟩) := by
  intro hosts
  induction hosts with
  | nil =>
    intro s st
    refine ⟨[], [], [], [], ?_, ?_, ?_, ?_⟩ <;> simp [handleLoop]
  | cons sh rest ih =>
    intro s st
    cases hg : GetDR st (calculateDRName h sh) h.Namespace with
    | some d =>
      obtain ⟨ext, da, di, ds, hrun, hext, hda, hsafe⟩ :=
        ih ({ s with activeHosts := s.activeHosts ++ [sh] }) st
      refine ⟨ext, sh :: da, di, ds, ?_, ?_, ?_, ?_⟩
      · simp only [handleLoop, handleHost_found h s st sh d hg]
        rw [hrun]
        simp [List.append_assoc]
      · intro o ho
        obtain ⟨h1, h2, b, hb, h3⟩ := hext o ho
        exact ⟨h1, h2, b, List.mem_cons_of_mem _ hb, h3⟩
      · intro x
        constructor
        · intro hx
          rcases List.mem_cons.mp hx with hx | hx
          · subst hx
            refine ⟨List.mem_cons_self _ _, ?_⟩
            rw [GetDR_append_some st ext _ _ d hg]
            rfl
          · obtain ⟨hmem, hsome⟩ := (hda x).mp hx
            exact ⟨List.mem_cons_of_mem _ hmem, hsome⟩
        · rintro ⟨hmem, hsome⟩
          rcases List.mem_cons.mp hmem with hx | hx
          · subst hx
            exact List.mem_cons_self _ _
          · exact List.mem_cons_of_mem _ ((hda x).mpr ⟨hx, hsome⟩)
      · intro a ha hnone
        rcases List.mem_cons.mp ha with ha | ha
        · subst ha
          rw [GetDR_append_some st ext _ _ d hg] at hnone
          exact Option.noConfusion hnone
        · exact hsafe a ha hnone
    | none =>
      cases hl : locateDestinationRuleByHostname h st sh with
      | ok dr0 =>
        obtain ⟨ext, da, di, ds, hrun, hext, hda, hsafe⟩ :=
          ih ⟨s.ignoredMissing, s.activeHosts ++ [sh],
            s.statuses ++ [⟨calculateDRName h sh, h.Namespace, .Initializing⟩]⟩
            (st ++ [generatedDR h dr0 sh])
        have hassoc : (st ++ [generatedDR h dr0 sh]) ++ ext =
            st ++ (generatedDR h dr0 sh :: ext) := by simp
        have hgetgd : GetDR (st ++ (generatedDR h dr0 sh :: ext))
            (calculateDRName h sh) h.Namespace = some (generatedDR h dr0 sh) := by
          rw [GetDR_append_none st _ _ _ hg]
          exact GetDR_cons_self _ ext _ _ rfl rfl
        refine ⟨generatedDR h dr0 sh :: ext, sh :: da, di,
          ⟨calculateDRName h sh, h.Namespace, .Initializing⟩ :: ds, ?_, ?_, ?_, ?_⟩
        · simp only [handleLoop, handleHost_created h s st sh dr0 hg hl]
          rw [hrun]
          simp [List.append_assoc]
        · intro o ho
          rcases List.mem_cons.mp ho with ho | ho
          · subst ho
            exact ⟨generatedDR_nondefault h dr0 sh hv, rfl, sh,
              List.mem_cons_self _ _, rfl⟩
          · obtain ⟨h1, h2, b, hb, h3⟩ := hext o ho
            exact ⟨h1, h2, b, List.mem_cons_of_mem _ hb, h3⟩
        · intro x
          constructor
          · intro hx
            rcases List.mem_cons.mp hx with hx | hx
            · subst hx
              refine ⟨List.mem_cons_self _ _, ?_⟩
              rw [hgetgd]
              rfl
            · obtain ⟨hmem, hsome⟩ := (hda x).mp hx
              rw [hassoc] at hsome
              exact ⟨List.mem_cons_of_mem _ hmem, hsome⟩
          · rintro ⟨hmem, hsome⟩
            rcases List.mem_cons.mp hmem with hx | hx
            · subst hx
              exact List.mem_cons_self _ _
            · refine List.mem_cons_of_mem _ ((hda x).mpr ⟨hx, ?_⟩)
              rw [hassoc]
              exact hsome
        · intro a ha hnone
          rcases List.mem_cons.mp ha with ha | ha
          · subst ha
            rw [hgetgd] at hnone
            exact Option.noConfusion hnone
          · rw [← hassoc] at hnone ⊢
            exact hsafe a ha hnone
      | error e =>
        obtain ⟨ext, da, di, ds, hrun, hext, hda, hsafe⟩ :=
          ih ⟨s.ignoredMissing ++ [sh], s.activeHosts,
            s.statuses ++ [⟨calculateDRName h sh, h.Namespace, .Initializing⟩]⟩ st
        refine ⟨ext, da, sh :: di,
          ⟨calculateDRName h sh, h.Namespace, .Initializing⟩ :: ds, ?_, ?_, ?_, ?_⟩
        · simp only [handleLoop, handleHost_ignored h s st sh e hg hl]
          rw [hrun]
          simp [List.append_assoc]
        · intro o ho
          obtain ⟨h1, h2, b, hb, h3⟩ := hext o ho
          exact ⟨h1, h2, b, List.mem_cons_of_mem _ hb, h3⟩
        · intro x
          constructor
          · intro hx
            obtain ⟨hmem, hsome⟩ := (hda x).mp hx
            exact ⟨List.mem_cons_of_mem _ hmem, hsome⟩
          · rintro ⟨hmem, hsome⟩
            rcases List.mem_cons.mp hmem with hx | hx
            · subst hx
              rw [GetDR_append_none st ext _ _ hg] at hsome
              cases hfo : GetDR ext (calculateDRName h x) h.Namespace with
              | none => rw [hfo] at hsome; simp at hsome
              | some o =>
                have hpo := List.find?_some hfo
                have hmo := List.mem_of_find?_eq_some hfo
                obtain ⟨_, _, b, hb, hname⟩ := hext o hmo
                simp only [Bool.and_eq_true, beq_iff_eq] at hpo
                have hbx : b = x := calculateDRName_inj h b x (by rw [← hname, hpo.1])
                subst hbx
                refine (hda b).mpr ⟨hb, ?_⟩
                rw [GetDR_append_none st ext _ _ hg, hfo]
                rfl
            · exact (hda x).mpr ⟨hx, hsome⟩
        · intro a ha hnone
          rcases List.mem_cons.mp ha with ha | ha
          · subst ha
            have hnd : ∀ o ∈ ext, hasDefaultVersionSubset h o = false :=
              fun o ho => (hext o ho).1
            rw [locate_append_nondefault h st ext a hnd, hl, locate_error_eq h st a e hl]
          · exact hsafe a ha hnone

theorem GetDR_append_single_ne (st : Store) (o : DestinationRule) (nm nsp : String)
    (hne : o.name ≠ nm) : GetDR (st ++ [o]) nm nsp = GetDR st nm nsp := by
  cases hgbs : GetDR st nm nsp with
  | some d' => exact GetDR_append_some st _ _ _ d' hgbs
  | none =>
    rw [GetDR_append_none st _ _ _ hgbs]
    have hb : (o.name == nm) = false := by simp [hne]
    simp [GetDR, List.find?, hb]

/-- One `Handle` loop pass over a duplicate-free host list, characterized
against the initial store: the ignored additions are exactly the hosts whose
override is absent and whose baseline is missing, the active additions are
exactly the other hosts, in input order, and every created object is named
for a host whose baseline resolved. -/
theorem handleLoop_run_nodup (h : DRHandler) (hv : h.UniqueVersion ≠ h.DefaultVersion) :
    ∀ (hosts : List String), hosts.Nodup → ∀ (s : HState) (st : Store),
    ∃ (ext : Store) (ds : List ResourceStatus),
      handleLoop h hosts s st = .ok
        (⟨s.ignoredMissing ++ hosts.filter (fun a => baselineIgnored h st a),
          s.activeHosts ++ hosts.filter (fun a => ! baselineIgnored h st a),
          s.statuses ++ ds⟩, st ++ ext) ∧
      (∀ o ∈ ext, hasDefaultVersionSubset h o = false ∧
        ∃ b ∈ hosts, o.name = calculateDRName h b ∧
          ∃ dr0, locateDestinationRuleByHostname h st b = .ok dr0) := by
  intro hosts
  induction hosts with
  | nil =>
    intro _ s st
    refine ⟨[], [], ?_, ?_⟩ <;> simp [handleLoop]
  | cons sh rest ih =>
    intro hnd s st
    have hshrest : sh ∉ rest := (List.nodup_cons.mp hnd).1
    have hndrest : rest.Nodup := (List.nodup_cons.mp hnd).2
    cases hg : GetDR st (calculateDRName h sh) h.Namespace with
    | some d =>
      have hbi : baselineIgnored h st sh = false := by
        simp [baselineIgnored, hg]
      obtain ⟨ext, ds, hrun, hext⟩ :=
        ih hndrest ({ s with activeHosts := s.activeHosts ++ [sh] }) st
      refine ⟨ext, ds, ?_, ?_⟩
      · simp only [handleLoop, handleHost_found h s st sh d hg]
        rw [hrun]
        simp [List.filter_cons, hbi, List.append_assoc]
      · intro o ho
        obtain ⟨h1, b, hb, h2, h3⟩ := hext o ho
        exact ⟨h1, b, List.mem_cons_of_mem _ hb, h2, h3⟩
    | none =>
      cases hl : locateDestinationRuleByHostname h st sh with
      | ok dr0 =>
        have hbi : baselineIgnored h st sh = false := by
          simp [baselineIgnored, hg, hl]
        obtain ⟨ext, ds, hrun, hext⟩ :=
          ih hndrest ⟨s.ignoredMissing, s.activeHosts ++ [sh],
            s.statuses ++ [⟨calculateDRName h sh, h.Namespace, .Initializing⟩]⟩
            (st ++ [generatedDR h dr0 sh])
        have hndgd : ∀ o ∈ [generatedDR h dr0 sh],
            hasDefaultVersionSubset h o = false := by
          intro o ho
          rw [List.mem_singleton.mp ho]
          exact generatedDR_nondefault h dr0 sh hv
        have hstb : ∀ b ∈ rest, baselineIgnored h (st ++ [generatedDR h dr0 sh]) b =
            baselineIgnored h st b := by
          intro b hb
          have hbne : b ≠ sh := fun hbe => hshrest (hbe ▸ hb)
          have hnm : (generatedDR h dr0 sh).name = calculateDRName h sh := rfl
          have hnmne : (generatedDR h dr0 sh).name ≠ calculateDRName h b := by
            rw [hnm]
            intro he
            exact hbne (calculateDRName_inj h sh b he).symm
          simp only [baselineIgnored, GetDR_append_single_ne st _ _ _ hnmne,
            locate_append_nondefault h st _ b hndgd]
        have hfe1 : rest.filter
              (fun a => baselineIgnored h (st ++ [generatedDR h dr0 sh]) a) =
            rest.filter (fun a => baselineIgnored h st a) :=
          List.filter_congr (fun b hb => hstb b hb)
        have hfe2 : rest.filter
              (fun a => ! baselineIgnored h (st ++ [generatedDR h dr0 sh]) a) =
            rest.filter (fun a => ! baselineIgnored h st a) :=
          List.filter_congr (fun b hb => by rw [hstb b hb])
        refine ⟨generatedDR h dr0 sh :: ext, ⟨calculateDRName h sh, h.Namespace,
          .Initializing⟩ :: ds, ?_, ?_⟩
        · simp only [handleLoop, handleHost_created h s st sh dr0 hg hl]
          rw [hrun, hfe1, hfe2]
          simp [List.filter_cons, hbi, List.append_assoc]
        · intro o ho
          rcases List.mem_cons.mp ho with ho | ho
          · subst ho
            exact ⟨generatedDR_nondefault h dr0 sh hv, sh, List.mem_cons_self _ _,
              rfl, dr0, hl⟩
          · obtain ⟨h1, b, hb, h2, dr1, h3⟩ := hext o ho
            rw [locate_append_nondefault h st _ b hndgd] at h3
            exact ⟨h1, b, List.mem_cons_of_mem _ hb, h2, dr1, h3⟩
      | error e =>
        have hbi : baselineIgnored h st sh = true := by
          simp [baselineIgnored, hg, hl]
        obtain ⟨ext, ds, hrun, hext⟩ :=
          ih hndrest ⟨s.ignoredMissing ++ [sh], s.activeHosts,
            s.statuses ++ [⟨calculateDRName h sh, h.Namespace, .Initializing⟩]⟩ st
        refine ⟨ext, ⟨calculateDRName h sh, h.Namespace, .Initializing⟩ :: ds, ?_, ?_⟩
        · simp only [handleLoop, handleHost_ignored h s st sh e hg hl]
          rw [hrun]
          simp [List.filter_cons, hbi, List.append_assoc]
        · intro o ho
          obtain ⟨h1, b, hb, h2, h3⟩ := hext o ho
          exact ⟨h1, b, List.mem_cons_of_mem _ hb, h2, h3⟩

/-- A `Handle` loop pass over a store in which every listed host either
already has its override or still resolves IgnorableMissing creates nothing:
the store is unchanged, the found hosts are appended to the active list and
the others to the ignored list, in input order. -/
theorem handleLoop_second (h : DRHandler) :
    ∀ (hosts : List String) (s : HState) (st : Store),
    (∀ a ∈ hosts, GetDR st (calculateDRName h a) h.Namespace = none →
      locateDestinationRuleByHostname h st a = .error ⟨true, "IgnoredMissing"⟩) →
    handleLoop h hosts s st = .ok
      (⟨s.ignoredMissing ++ hosts.filter (fun a =>
          (GetDR st (calculateDRName h a) h.Namespace).isNone),
        s.activeHosts ++ hosts.filter (fun a =>
          (GetDR st (calculateDRName h a) h.Namespace).isSome),
        s.statuses ++ (hosts.filter (fun a =>
          (GetDR st (calculateDRName h a) h.Namespace).isNone)).map
            (fun a => ⟨calculateDRName h a, h.Namespace, .Initializing⟩)⟩, st) := by
  intro hosts
  induction hosts with
  | nil =>
    intro s st _
    simp [handleLoop]
  | cons sh rest ih =>
    intro s st hsafe
    cases hg : GetDR st (calculateDRName h sh) h.Namespace with
    | some d =>
      have hrun := ih ({ s with activeHosts := s.activeHosts ++ [sh] }) st
        (fun a ha => hsafe a (List.mem_cons_of_mem _ ha))
      simp only [handleLoop, handleHost_found h s st sh d hg]
      rw [hrun]
      simp [List.filter_cons, hg, List.append_assoc]
    | none =>
      have hl := hsafe sh (List.mem_cons_self _ _) hg
      have hrun := ih ⟨s.ignoredMissing ++ [sh], s.activeHosts,
          s.statuses ++ [⟨calculateDRName h sh, h.Namespace, .Initializing⟩]⟩ st
        (fun a ha => hsafe a (List.mem_cons_of_mem _ ha))
      simp only [handleLoop, handleHost_ignored h s st sh _ hg hl]
      rw [hrun]
      simp [List.filter_cons, hg, List.append_assoc]

/-- C2 amended: for a fresh handler instance with a nondegenerate
configuration (target version distinct from default version), a second
`Handle` call with no external state change leaves the store exactly as the
first call left it (no new and hence no duplicate routing objects) and
activates the same set of hosts — but because `activeHosts` accumulates on
the instance, `GetHosts` after the second call is the first list with the
active hosts appended again, so it is equal as a set, not as a list. -/
theorem C2_handle_idempotent (h : DRHandler) (st : Store)
    (hv : h.UniqueVersion ≠ h.DefaultVersion)
    (s1 : HState) (st1 : Store)
    (hfirst : Handle h freshHState st = .ok (s1, st1)) :
    Handle h s1 st1 = .ok
      (⟨s1.ignoredMissing ++ h.ServiceHosts.filter (fun a =>
          (GetDR st1 (calculateDRName h a) h.Namespace).isNone),
        s1.activeHosts ++ h.ServiceHosts.filter (fun a =>
          (GetDR st1 (calculateDRName h a) h.Namespace).isSome),
        s1.statuses ++ (h.ServiceHosts.filter (fun a =>
          (GetDR st1 (calculateDRName h a) h.Namespace).isNone)).map
            (fun a => ⟨calculateDRName h a, h.Namespace, .Initializing⟩)⟩, st1) ∧
    (∀ x, x ∈ GetHosts s1 ++ h.ServiceHosts.filter (fun a =>
        (GetDR st1 (calculateDRName h a) h.Namespace).isSome) ↔
      x ∈ GetHosts s1) := by
  obtain ⟨ext, da, di, ds, hrun, hext, hda, hsafe⟩ :=
    handleLoop_run h hv h.ServiceHosts freshHState st
  simp only [freshHState, List.nil_append] at hrun
  simp only [Handle, freshHState, hrun] at hfirst
  by_cases hda0 : da = []
  · subst hda0
    simp at hfirst
  · have hlen : (da.length == 0) = false := by
      cases da with
      | nil => exact absurd rfl hda0
      | cons x xs => simp
    rw [hlen] at hfirst
    simp only [Bool.false_eq_true, if_false] at hfirst
    injection hfirst with hp
    injection hp with h1 h2
    subst h1
    subst h2
    have hrun2 := handleLoop_second h h.ServiceHosts ⟨di, da, ds⟩ (st ++ ext) hsafe
    constructor
    · have hconc : ((da ++ h.ServiceHosts.filter (fun a =>
          (GetDR (st ++ ext) (calculateDRName h a) h.Namespace).isSome)).length
            == 0) = false := by
        cases da with
        | nil => exact absurd rfl hda0
        | cons x xs => simp
      simp only [Handle, hrun2, hconc, Bool.false_eq_true, if_false]
    · intro x
      constructor
      · intro hx
        rcases List.mem_append.mp hx with hx | hx
        · exact hx
        · have hmf := List.mem_filter.mp hx
          exact (hda x).mpr ⟨hmf.1, by simpa using hmf.2⟩
      · intro hx
        exact List.mem_append_left _ hx

/-- C2 counterexample: on an instance whose single host already has its
override in the store, the first `Handle` activates the host once and a
second `Handle` appends it again, so `GetHosts` after the second call is not
the active-host list after the first and contains a duplicate — against the
claim's "same active-host set ... no duplicates". -/
theorem C2_counterexample :
    Handle exampleHandler freshHState [exampleOverride] =
      .ok (⟨[], ["svc"], []⟩, [exampleOverride]) ∧
    Handle exampleHandler ⟨[], ["svc"], []⟩ [exampleOverride] =
      .ok (⟨[], ["svc", "svc"], []⟩, [exampleOverride]) ∧
    GetHosts ⟨[], ["svc", "svc"], []⟩ ≠ GetHosts ⟨[], ["svc"], []⟩ ∧
    ¬ (GetHosts ⟨[], ["svc", "svc"], []⟩).Nodup := by
  exact ⟨by decide, by decide, by decide, by decide⟩

/-- C2 witness: the second `Handle` call on the sample instance leaves the
store unchanged and re-activates exactly the already-active host. -/
theorem C2_witness :
    Handle exampleHandler ⟨[], ["svc"], []⟩ [exampleOverride] =
      .ok (⟨[], ["svc", "svc"], []⟩, [exampleOverride]) := by
  obtain ⟨h1, h2⟩ := C2_handle_idempotent exampleHandler [exampleOverride]
    (by decide) ⟨[], ["svc"], []⟩ [exampleOverride] (by decide)
  have heval : (⟨[] ++ exampleHandler.ServiceHosts.filter (fun a =>
      (GetDR [exampleOverride] (calculateDRName exampleHandler a)
        exampleHandler.Namespace).isNone),
    ["svc"] ++ exampleHandler.ServiceHosts.filter (fun a =>
      (GetDR [exampleOverride] (calculateDRName exampleHandler a)
        exampleHandler.Namespace).isSome),
    [] ++ (exampleHandler.ServiceHosts.filter (fun a =>
      (GetDR [exampleOverride] (calculateDRName exampleHandler a)
        exampleHandler.Namespace).isNone)).map
        (fun a => ⟨calculateDRName exampleHandler a, exampleHandler.Namespace,
          .Initializing⟩)⟩ : HState) = ⟨[], ["svc", "svc"], []⟩ := by decide
  rw [h1, heval]

/-- C3 amended: in a single `Handle` pass of a fresh instance with a
nondegenerate, duplicate-free configuration, a host whose override is absent
and whose baseline lacks the default-version subset is added to the ignored
set exactly once, and `GetStatus` then reports it IgnoredMissing.  (The
ignored set is appended to unconditionally, so each further `Handle` call on
the same instance within the cycle appends the host again; see the
counterexample.) -/
theorem C3_ignored_once (h : DRHandler) (st : Store) (sh : String)
    (hv : h.UniqueVersion ≠ h.DefaultVersion)
    (hnd : h.ServiceHosts.Nodup)
    (hmem : sh ∈ h.ServiceHosts)
    (hGet : GetDR st (calculateDRName h sh) h.Namespace = none)
    (hloc : locateDestinationRuleByHostname h st sh =
      .error ⟨true, "IgnoredMissing"⟩) :
    ∀ (s1 : HState) (st1 : Store),
      handleLoop h h.ServiceHosts freshHState st = .ok (s1, st1) →
      List.count sh s1.ignoredMissing = 1 ∧
      genStatus h (calculateDRName h sh) .IgnoredMissingDR ∈ GetStatus h s1 st1 := by
  intro s1 st1 hrun1
  obtain ⟨ext, ds, hrun, hext⟩ :=
    handleLoop_run_nodup h hv h.ServiceHosts hnd freshHState st
  simp only [freshHState, List.nil_append] at hrun hrun1
  rw [hrun] at hrun1
  injection hrun1 with hp
  injection hp with h1 h2
  subst h1
  subst h2
  have hbi : baselineIgnored h st sh = true := by
    simp [baselineIgnored, hGet, hloc]
  have hGet1 : GetDR (st ++ ext) (calculateDRName h sh) h.Namespace = none := by
    rw [GetDR_append_none st ext _ _ hGet]
    cases hfo : GetDR ext (calculateDRName h sh) h.Namespace with
    | none => rfl
    | some o =>
      have hpo := List.find?_some hfo
      have hmo := List.mem_of_find?_eq_some hfo
      obtain ⟨_, b, hb, hname, dr1, hlb⟩ := hext o hmo
      simp only [Bool.and_eq_true, beq_iff_eq] at hpo
      have hbsh : b = sh := calculateDRName_inj h b sh (by rw [← hname, hpo.1])
      subst hbsh
      rw [hloc] at hlb
      exact Except.noConfusion hlb
  constructor
  · rw [List.count_filter hbi]
    exact List.count_eq_one_of_mem hnd hmem
  · have hmemI : sh ∈ List.filter (fun a => baselineIgnored h st a) h.ServiceHosts :=
      List.mem_filter.mpr ⟨hmem, hbi⟩
    have hcont : StringSliceContains sh
        (List.filter (fun a => baselineIgnored h st a) h.ServiceHosts) = true :=
      List.elem_eq_true_of_mem hmemI
    unfold GetStatus
    refine List.mem_map.mpr ⟨sh, hmem, ?_⟩
    simp [hGet1, hcont]

/-- C3 counterexample: on an instance with hosts "act" (override present)
and "ign" (baseline missing), each `Handle` call appends "ign" to the
ignored set again, so after two calls within the same cycle the ignored set
holds a duplicate entry for the host — against the claim's "never
accumulates a duplicate entry ... even when Handle is called repeatedly
within the cycle". -/
theorem C3_counterexample :
    Handle exampleHandler2 freshHState [exampleOverrideAct] =
      .ok (⟨["ign"], ["act"], [⟨"uniq-ign", "ns", .Initializing⟩]⟩,
        [exampleOverrideAct]) ∧
    Handle exampleHandler2 ⟨["ign"], ["act"], [⟨"uniq-ign", "ns", .Initializing⟩]⟩
        [exampleOverrideAct] =
      .ok (⟨["ign", "ign"], ["act", "act"],
        [⟨"uniq-ign", "ns", .Initializing⟩, ⟨"uniq-ign", "ns", .Initializing⟩]⟩,
        [exampleOverrideAct]) ∧
    List.count "ign"
      (⟨["ign", "ign"], ["act", "act"],
        [⟨"uniq-ign", "ns", .Initializing⟩, ⟨"uniq-ign", "ns", .Initializing⟩]⟩
          : HState).ignoredMissing = 2 := by
  exact ⟨by decide, by decide, by decide⟩

/-- C3 witness: a single pass of the sample instance records "ign" in the
ignored set exactly once and `GetStatus` reports it IgnoredMissing. -/
theorem C3_witness :
    List.count "ign"
      (⟨["ign"], ["act"], [⟨"uniq-ign", "ns", .Initializing⟩]⟩
        : HState).ignoredMissing = 1 ∧
    genStatus exampleHandler2 (calculateDRName exampleHandler2 "ign")
        .IgnoredMissingDR ∈
      GetStatus exampleHandler2
        ⟨["ign"], ["act"], [⟨"uniq-ign", "ns", .Initializing⟩]⟩
        [exampleOverrideAct] :=
  C3_ignored_once exampleHandler2 [exampleOverrideAct] "ign" (by decide) (by decide)
    (by decide) (by decide) (by decide)
    ⟨["ign"], ["act"], [⟨"uniq-ign", "ns", .Initializing⟩]⟩ [exampleOverrideAct]
    (by decide)
